import Mathlib

/-
Verification of the unit-conversion engine in src/prototype.py.

The Python program is shallowly embedded as follows:
- Python floats are modelled as exact rationals (ℚ); the coefficients in the
  fixed catalog are exactly representable in the claims that matter.
- Python dicts (unit-name to integer exponent, insertion-ordered) are modelled
  as association lists, List (String × ℤ); dict.get(u, 0) is unitGet, and
  dict[u] (which raises KeyError when absent) is List.lookup into Option.
- Code that can raise (KeyError, IndexError from random.choice on an empty
  sequence, ZeroDivisionError, math domain errors, unbound locals) is modelled
  as Option-valued, with none for the raising executions.
- random.random() coin flips and random.choice picks are injected as explicit
  Bool / ℕ parameters; random.choice(seq) given pick n is seq.get? (n % len),
  which is none exactly when seq is empty (the IndexError case).
- The module-level defaultdict index CONV_BY_UNIT is modelled as an
  association list threaded explicitly through random_convert, with dget
  reproducing defaultdict.__getitem__ (which inserts a fresh empty entry on a
  missing key before returning it).
-/

/- ------------------------------------------------------------------ -/
/- Generic dictionary helpers (Python dict semantics)                  -/
/- ------------------------------------------------------------------ -/

/-- Python dict.get(u, 0): value stored under key u, defaulting to 0. -/
def unitGet (m : List (String × ℤ)) (u : String) : ℤ :=
  (m.lookup u).getD 0

/-- Key union in first-seen order with duplicates removed; models iterating
the set units.keys() | self.units.keys() (Python set order is unspecified;
only the resulting dict contents matter to the spec). -/
def dedupKeys : List String → List String
  | [] => []
  | k :: rest => k :: (dedupKeys rest).filter fun x => x != k

/-- random.choice(seq) under an injected pick n: none exactly when seq is
empty, in which case Python raises IndexError. -/
def randChoice {α : Type} (l : List α) (n : ℕ) : Option α :=
  l.get? (n % l.length)

/- ------------------------------------------------------------------ -/
/- SI prefix ladder and get_si (src/prototype.py lines 84-165)         -/
/- ------------------------------------------------------------------ -/

/-- The keys of SI_PREFIXES in insertion (= ascending) order. -/
def siKeys : List ℤ :=
  [-30, -27, -24, -21, -18, -15, -12, -9, -6, -3, -2, -1, 0,
   1, 2, 3, 6, 9, 12, 15, 18, 21, 24, 27, 30]

/-- SI_PREFIXES as an association list. -/
def siTable : List (ℤ × String) :=
  [(-30, "quecto"), (-27, "ronto"), (-24, "yocto"), (-21, "zepto"),
   (-18, "atto"), (-15, "femto"), (-12, "pico"), (-9, "nano"),
   (-6, "micro"), (-3, "milli"), (-2, "centi"), (-1, "deci"),
   (0, ""), (1, "deca"), (2, "hecto"), (3, "kilo"), (6, "mega"),
   (9, "giga"), (12, "tera"), (15, "peta"), (18, "exa"), (21, "zetta"),
   (24, "yotta"), (27, "ronna"), (30, "quetta")]

/-- SI_PREFIXES[k]; k is always drawn from siKeys so the default is unused. -/
def siName (k : ℤ) : String :=
  (siTable.lookup k).getD ""

/-- bisect_left(l, v) for a sorted list l: the number of entries below v. -/
def blL (l : List ℤ) (v : ℚ) : ℕ :=
  l.countP fun k : ℤ => decide ((k : ℚ) < v)

/-- bisect_left(keys, v) on the prefix ladder. -/
def blQ (v : ℚ) : ℕ := blL siKeys v

/-- Python slice l of i to j. -/
def pySlice (l : List ℤ) (i j : ℕ) : List ℤ :=
  (l.drop i).take (j - i)

/-- The numerator candidate ladder slice num_choices of get_si:
keys[bisect_left(keys, max(-30, (exp-6)/e)) : bisect_left(keys, min(30, (exp+6)/e))]. -/
def num_choices (exp e : ℤ) : List ℤ :=
  pySlice siKeys
    (blQ (max (-30) (((exp : ℚ) - 6) / (e : ℚ))))
    (blQ (min 30 (((exp : ℚ) + 6) / (e : ℚ))))

/-- The denominator candidate ladder slice den_choices of get_si:
keys[bisect_left(keys, max(-30, exp_new-6)) : bisect_left(keys, min(30, exp_new+6)) + 1].
Note the window is not divided by the denominator exponent, and the upper
bisect bound is made inclusive by the + 1. -/
def den_choices (expNew : ℤ) : List ℤ :=
  pySlice siKeys
    (blQ (max (-30) ((expNew : ℚ) - 6)))
    (blQ (min 30 ((expNew : ℚ) + 6)) + 1)

/-- Body of get_si after exp = floor(log10(abs(x))) has been computed.
Returns (den - num, num_pre, den_pre); none models the executions in which
random.choice is applied to an empty slice (IndexError) or a unit power of 0
reaches the division (ZeroDivisionError, impossible from format_numerator). -/
def get_si_core (exp : ℤ) (numPowers denPowers : List ℤ) (coinNum coinDen : Bool)
    (c₁ c₂ : ℕ) : Option (ℤ × String × String) :=
  let use_num := numPowers.length == 1 && coinNum
  let use_den := denPowers.length == 1 && coinDen
  let numStep : Option (String × ℤ × ℤ) :=
    if use_num then
      let e := numPowers.headD 0
      if e = 0 then none
      else
        match randChoice (num_choices exp e) c₁ with
        | none => none
        | some num => some (siName num, num, exp - num * e)
    else some ("", 0, exp)
  match numStep with
  | none => none
  | some (num_pre, num, exp_new) =>
    let denStep : Option (String × ℤ) :=
      if use_den then
        match randChoice (den_choices exp_new) c₂ with
        | none => none
        | some den => some (siName den, den)
      else some ("", 0)
    match denStep with
    | none => none
    | some (den_pre, den) => some (den - num, num_pre, den_pre)

/-- get_si(x, num_powers, den_powers) with the two coin flips and the two
random picks injected. Int.log 10 is the exact floor of log10; x = 0 models
the math.log10 domain error. -/
def get_si (x : ℚ) (numPowers denPowers : List ℤ) (coinNum coinDen : Bool)
    (c₁ c₂ : ℕ) : Option (ℤ × String × String) :=
  if x = 0 then none
  else get_si_core (Int.log 10 |x|) numPowers denPowers coinNum coinDen c₁ c₂

/- ------------------------------------------------------------------ -/
/- Formatting helpers (src/prototype.py lines 113-122)                 -/
/- ------------------------------------------------------------------ -/

/-- format_exp(unit, exp, natural_sign). -/
def format_exp (unit : String) (exp : ℤ) (naturalSign : ℤ) : String :=
  if exp = naturalSign then unit
  else unit ++ "^" ++ toString (exp * naturalSign)

/-- get_plural(unit): re.search of the character class s or z anchored at the
end, i.e. a test of the last character; an added "s" unless the name already
ends in s or z (an empty name gains the "s"). -/
def get_plural (unit : String) : String :=
  match unit.data.getLast? with
  | some c => if c = 's' ∨ c = 'z' then "" else "s"
  | none => "s"

/-- Thousands-separated digits, least significant first: a comma before every
third digit boundary. -/
def insertCommas : ℕ → List Char → List Char
  | _, [] => []
  | pos, c :: rest =>
    (if pos % 3 = 0 ∧ pos ≠ 0 then [',', c] else [c]) ++ insertCommas (pos + 1) rest

/-- Python format(n, ",") for an integer: sign and grouped-thousands digits. -/
def format_int (n : ℤ) : String :=
  let ds := Nat.toDigits 10 n.natAbs
  (if n < 0 then "-" else "") ++ String.mk (insertCommas 0 ds.reverse).reverse

/-- Decimal digits of the fraction r / d, most significant first, emitting up
to the given fuel and stopping at a zero remainder. -/
def fracDigits : ℕ → ℕ → ℕ → String
  | 0, _, _ => ""
  | _ + 1, 0, _ => ""
  | fuel + 1, r, d =>
    String.mk (Nat.toDigits 10 (r * 10 / d)) ++ fracDigits fuel (r * 10 % d) d

/-- Python f-string \x7bcoeff:,\x7d. An integral coefficient renders exactly as
the Python int; a non-integral one as grouped integer part, a point, and the
(finite, for binary floats) fractional decimal digits. The claims under
verification only exercise integral coefficients. -/
def format_coeff (q : ℚ) : String :=
  if q.den = 1 then format_int q.num
  else
    (if q.num < 0 ∧ -q.num < (q.den : ℤ) then "-" else "") ++
    format_int (q.num / (q.den : ℤ)) ++ "." ++
    fracDigits 30 (q.num.natAbs % q.den) q.den

/- ------------------------------------------------------------------ -/
/- Quantity (src/prototype.py lines 168-255)                           -/
/- ------------------------------------------------------------------ -/

/-- A scalar coefficient paired with a unit-exponent dict. -/
structure Quantity where
  coeff : ℚ
  units : List (String × ℤ)
deriving DecidableEq

/-- Quantity.unit_pairs(self, units, sign): for every unit in either key set,
units.get(u, 0) + sign * self.units.get(u, 0), keeping only non-zero results. -/
def Quantity.unit_pairs (self : Quantity) (units : List (String × ℤ)) (sign : ℤ) :
    List (String × ℤ) :=
  (dedupKeys (units.map Prod.fst ++ self.units.map Prod.fst)).filterMap fun u =>
    let newExp := unitGet units u + sign * unitGet self.units u
    if newExp = 0 then none else some (u, newExp)

/-- Quantity.multiply(self, other, target_unit). The two dict subscripts
self.units[target_unit] and other.units[target_unit] raise KeyError when the
key is absent, modelled by none. coeff ** sign is zpow; sign is 1 or -1, and
the section-3 coefficient invariant keeps coeff non-zero, so the Python
ZeroDivisionError for 0.0 ** -1 is unreachable. -/
def Quantity.multiply (self other : Quantity) (targetUnit : String) : Option Quantity :=
  match self.units.lookup targetUnit, other.units.lookup targetUnit with
  | some se, some oe =>
    let sign : ℤ := if se < oe then 1 else -1
    some ⟨self.coeff ^ sign * other.coeff, self.unit_pairs other.units sign⟩
  | _, _ => none

/-- Quantity.reciprocal: 1/coeff and negated exponents. -/
def Quantity.reciprocal (q : Quantity) : Quantity :=
  ⟨1 / q.coeff, q.units.map fun p => (p.1, -p.2)⟩

/-- Quantity.format_numerator: positive-exponent entries; the final unit gets
the plural suffix and the whole joined string gets the exponent suffix. -/
def Quantity.format_numerator (q : Quantity) : String × String × List ℤ :=
  let pairs := q.units.filter fun p => decide (0 < p.2)
  match pairs.getLast? with
  | none => ("inverse", "", [])
  | some (lastU, lastE) =>
    let numOthers := pairs.dropLast
    let num := " ".intercalate (numOthers.map fun p => format_exp p.1 p.2 1)
    let numSep := if numOthers.isEmpty then "" else " "
    let plural := get_plural lastU
    (format_exp (num ++ numSep ++ lastU ++ plural) lastE 1, "per ", pairs.map Prod.snd)

/-- Quantity.format_denominator: negative-exponent entries joined with spaces,
each with natural sign -1. -/
def Quantity.format_denominator (q : Quantity) : String × List ℤ :=
  let pairs := q.units.filter fun p => decide (p.2 < 0)
  (" ".intercalate (pairs.map fun p => format_exp p.1 p.2 (-1)), pairs.map Prod.snd)

/-- Quantity.to_string(maybe_si). The maybe_si=False branch of the source
assigns the vestigial names si_num_exp and si_den_exp but never exp_adj, and
the following line reads exp_adj: every such call raises UnboundLocalError,
modelled by none. The maybe_si=True branch passes the coin flips and picks to
get_si. -/
def Quantity.to_string (q : Quantity) (maybe_si : Bool) (coinNum coinDen : Bool)
    (c₁ c₂ : ℕ) : Option String :=
  let nu := q.format_numerator
  let num_units := nu.1
  let division := nu.2.1
  let num_powers := nu.2.2
  let de := q.format_denominator
  let den0 := de.1
  let den_powers := de.2
  let den := if den0 ≠ "" ∧ division ≠ "per " then den0 ++ get_plural den0 else den0
  if maybe_si then
    match get_si q.coeff num_powers den_powers coinNum coinDen c₁ c₂ with
    | none => none
    | some (exp_adj, prefix_num, prefix_den) =>
      let coeff := q.coeff * 10 ^ exp_adj
      let coeff_num := format_coeff coeff ++ " " ++ prefix_num ++ num_units
      some (if den ≠ "" then coeff_num ++ " " ++ division ++ prefix_den ++ den
            else coeff_num)
  else none

/-- Modelled from the spec: sections 4.6 and 6 contract that
render(quantity, useRandomPrefixes=false) always produces a string, but the
non-SI branch of to_string in the source never assigns exp_adj before it is
read. This is the same rendering with the evident intended assignment
exp_adj = 0 (no power-of-ten adjustment and no prefixes), used to settle the
claims about the text the non-SI path was meant to produce. -/
def Quantity.to_string_fixed (q : Quantity) : String :=
  let nu := q.format_numerator
  let num_units := nu.1
  let division := nu.2.1
  let de := q.format_denominator
  let den0 := de.1
  let den := if den0 ≠ "" ∧ division ≠ "per " then den0 ++ get_plural den0 else den0
  let exp_adj : ℤ := 0
  let coeff := q.coeff * 10 ^ exp_adj
  let coeff_num := format_coeff coeff ++ " " ++ "" ++ num_units
  if den ≠ "" then coeff_num ++ " " ++ division ++ "" ++ den else coeff_num

/- ------------------------------------------------------------------ -/
/- Catalog and index (src/prototype.py lines 61-82, 264-292)           -/
/- ------------------------------------------------------------------ -/

/-- CONVERSIONS: the fixed catalog, with lhs(u=e) stored negated and rhs
kept as given, in source order. 33.3564e-12 is exact as a rational. -/
def CONVERSIONS : List (ℚ × List (String × ℤ)) :=
  [(1, [("volt", -1), ("ampère", 1), ("ohm", 1)]),
   (1, [("watt", -1), ("volt", 1), ("ampère", 1)]),
   (1, [("ampère", -1), ("coulomb", 1), ("second", -1)]),
   (1, [("siemen", -1), ("ohm", -1)]),
   (1, [("hertz", -1), ("second", -1)]),
   (33.3564e-12, [("jiffy", -1), ("second", 1)]),
   (60, [("minute", -1), ("second", 1)]),
   (60, [("hour", -1), ("minute", 1)]),
   (24, [("day", -1), ("hour", 1)]),
   (7, [("week", -1), ("day", 1)])]

/-- The unit-to-equations index: unit name to the list held by its ConvIndex. -/
abbrev Index := List (String × List Quantity)

/-- ConvIndex.add performed inside the defaultdict: append the equation to the
list under u, creating the entry (at the end, dict insertion order) if new. -/
def updateIndex (idx : Index) (u : String) (q : Quantity) : Index :=
  if (idx.lookup u).isSome then
    idx.map fun p => if p.1 = u then (p.1, p.2 ++ [q]) else p
  else idx ++ [(u, [q])]

/-- ConvIndex.index_all(): every equation is filed under every unit its
exponent dict mentions, in catalog order. -/
def index_all : Index :=
  CONVERSIONS.foldl
    (fun idx c => c.2.foldl (fun idx2 p => updateIndex idx2 p.1 ⟨c.1, c.2⟩) idx) []

/-- CONV_BY_UNIT, built once at module load. -/
def CONV_BY_UNIT : Index := index_all

/-- defaultdict.__getitem__: a missing key is inserted with a fresh empty
ConvIndex before being returned, mutating the mapping on a mere read. -/
def dget (idx : Index) (u : String) : List Quantity × Index :=
  match idx.lookup u with
  | some v => (v, idx)
  | none => ([], idx ++ [(u, [])])

/-- One dimension-meddle round of random_convert: choose a target unit from
the current units (IndexError if the dict is empty), read the index through
the defaultdict, pick an equation (IndexError if the entry list is empty) and
apply entry.multiply(output, target_unit). The possibly-mutated index is
returned alongside. -/
def meddle_round (idx : Index) (q : Quantity) (tPick ePick : ℕ) :
    Option Quantity × Index :=
  match randChoice (q.units.map Prod.fst) tPick with
  | none => (none, idx)
  | some targetUnit =>
    match dget idx targetUnit with
    | (entry, idx2) =>
      match randChoice entry ePick with
      | none => (none, idx2)
      | some eq => (eq.multiply q targetUnit, idx2)

/-- The n_rounds loop of random_convert; a raised exception aborts the loop
but the index mutations already performed persist. -/
def random_convert_loop : Index → Quantity → List (ℕ × ℕ) → Option Quantity × Index
  | idx, q, [] => (some q, idx)
  | idx, q, r :: rest =>
    match meddle_round idx q r.1 r.2 with
    | (some q2, idx2) => random_convert_loop idx2 q2 rest
    | (none, idx2) => (none, idx2)

/-- Quantity.random_convert with the randomness injected: the optional
probability-0.20 up-front reciprocal as a Bool, and one (target pick,
equation pick) pair per round; the module-global index is threaded
explicitly. -/
def random_convert (idx : Index) (q : Quantity) (doRecip : Bool)
    (rounds : List (ℕ × ℕ)) : Option Quantity × Index :=
  random_convert_loop idx (if doRecip then q.reciprocal else q) rounds

/-- The index after a run of random_convert extends the index before it: every
stored entry is preserved, and a key can only appear freshly bound to the
empty list (the defaultdict read of a missing unit). -/
def IdxExt (i j : Index) : Prop :=
  ∀ u : String, j.lookup u = i.lookup u ∨ (i.lookup u = none ∧ j.lookup u = some [])

/- ------------------------------------------------------------------ -/
/- Helper lemmas about the dictionary model                            -/
/- ------------------------------------------------------------------ -/

theorem lookup_eq_none_of_not_mem_keys {β : Type} (m : List (String × β)) (u : String)
    (h : u ∉ m.map Prod.fst) : m.lookup u = none := by
  induction m with
  | nil => rfl
  | cons p t ih =>
    obtain ⟨k, v⟩ := p
    simp only [List.map_cons, List.mem_cons, not_or] at h
    rw [List.lookup_cons]
    have hb : (u == k) = false := by simpa using h.1
    simp [hb, ih h.2]

theorem mem_dedupKeys (l : List String) (u : String) : u ∈ dedupKeys l ↔ u ∈ l := by
  induction l with
  | nil => simp [dedupKeys]
  | cons k t ih =>
    simp only [dedupKeys, List.mem_cons, List.mem_filter, bne_iff_ne, ih]
    by_cases h : u = k <;> simp [h, ih]

theorem unitGet_filterMap (g : String → ℤ) (ks : List String) (u : String) :
    unitGet (ks.filterMap fun k => if g k = 0 then none else some (k, g k)) u
      = if u ∈ ks then g u else 0 := by
  induction ks with
  | nil => simp [unitGet]
  | cons k t ih =>
    rw [List.filterMap_cons]
    by_cases hgk : g k = 0
    · rw [if_pos hgk]
      rw [ih]
      by_cases huk : u = k
      · subst huk
        by_cases hut : u ∈ t <;> simp [hut, hgk]
      · simp [List.mem_cons, huk]
    · rw [if_neg hgk]
      by_cases huk : u = k
      · subst huk
        simp [unitGet, List.lookup_cons]
      · have hb : (u == k) = false := by simpa using huk
        simp only [unitGet, List.lookup_cons, hb] at ih ⊢
        rw [ih]
        simp [List.mem_cons, huk]

theorem unitGet_unit_pairs (self : Quantity) (units : List (String × ℤ)) (sign : ℤ)
    (u : String) :
    unitGet (self.unit_pairs units sign) u
      = unitGet units u + sign * unitGet self.units u := by
  have h := unitGet_filterMap
    (fun k => unitGet units k + sign * unitGet self.units k)
    (dedupKeys (units.map Prod.fst ++ self.units.map Prod.fst)) u
  by_cases hu : u ∈ dedupKeys (units.map Prod.fst ++ self.units.map Prod.fst)
  · rw [if_pos hu] at h
    exact h
  · rw [if_neg hu] at h
    have hu2 := hu
    rw [mem_dedupKeys, List.mem_append, not_or] at hu2
    have e1 : unitGet units u = 0 := by
      unfold unitGet
      rw [lookup_eq_none_of_not_mem_keys _ _ hu2.1]
      rfl
    have e2 : unitGet self.units u = 0 := by
      unfold unitGet
      rw [lookup_eq_none_of_not_mem_keys _ _ hu2.2]
      rfl
    rw [e1, e2]
    simpa using h

theorem unit_pairs_ne_zero (self : Quantity) (units : List (String × ℤ)) (sign : ℤ) :
    ∀ p ∈ self.unit_pairs units sign, p.2 ≠ 0 := by
  intro p hp
  unfold Quantity.unit_pairs at hp
  rw [List.mem_filterMap] at hp
  obtain ⟨a, _, ha⟩ := hp
  by_cases h0 : unitGet units a + sign * unitGet self.units a = 0
  · rw [if_pos h0] at ha
    cases ha
  · rw [if_neg h0] at ha
    cases ha
    simpa using h0

/- ------------------------------------------------------------------ -/
/- Helper lemmas about bisect slices of a sorted ladder                -/
/- ------------------------------------------------------------------ -/

theorem blL_cons_of_lt {a : ℤ} {t : List ℤ} {v : ℚ} (h : (a : ℚ) < v) :
    blL (a :: t) v = blL t v + 1 := by
  simp [blL, List.countP_cons, h]

theorem blL_cons_of_ge {a : ℤ} {t : List ℤ} (ha : ∀ x ∈ t, a ≤ x) {v : ℚ}
    (h : ¬ (a : ℚ) < v) : blL (a :: t) v = 0 := by
  rw [blL, List.countP_eq_zero]
  intro x hx
  simp only [decide_eq_true_eq, not_lt]
  have hax : (a : ℚ) ≤ (x : ℚ) := by
    rcases List.mem_cons.mp hx with h1 | h1
    · rw [h1]
    · exact_mod_cast ha x h1
  exact le_trans (not_lt.mp h) hax

theorem blL_le_mem {l : List ℤ} (hl : l.Pairwise (· ≤ ·)) (lo : ℚ) :
    ∀ (n : ℕ) (p : ℤ), p ∈ (l.drop (blL l lo)).take n → lo ≤ (p : ℚ) := by
  induction l with
  | nil => intro n p hp; simp [blL] at hp
  | cons a t ih =>
    obtain ⟨ha, ht⟩ := List.pairwise_cons.mp hl
    intro n p hp
    by_cases h : (a : ℚ) < lo
    · rw [blL_cons_of_lt h, List.drop_succ_cons] at hp
      exact ih ht n p hp
    · rw [blL_cons_of_ge ha h, List.drop_zero] at hp
      have hm : p ∈ a :: t := List.take_subset _ _ hp
      have hap : (a : ℚ) ≤ (p : ℚ) := by
        rcases List.mem_cons.mp hm with h1 | h1
        · rw [h1]
        · exact_mod_cast ha p h1
      exact le_trans (not_lt.mp h) hap

theorem mem_take_blL_lt {l : List ℤ} (hl : l.Pairwise (· ≤ ·)) (hi : ℚ) :
    ∀ (i : ℕ) (p : ℤ), p ∈ (l.drop i).take (blL l hi - i) → (p : ℚ) < hi := by
  induction l with
  | nil => intro i p hp; simp [blL] at hp
  | cons a t ih =>
    obtain ⟨ha, ht⟩ := List.pairwise_cons.mp hl
    intro i p hp
    by_cases h : (a : ℚ) < hi
    · rw [blL_cons_of_lt h] at hp
      cases i with
      | zero =>
        rw [List.drop_zero, Nat.sub_zero, List.take_succ_cons] at hp
        rcases List.mem_cons.mp hp with h1 | h1
        · rw [h1]; exact h
        · exact ih ht 0 p (by simpa using h1)
      | succ i =>
        rw [List.drop_succ_cons, Nat.succ_sub_succ] at hp
        exact ih ht i p hp
    · rw [blL_cons_of_ge ha h, Nat.zero_sub, List.take_zero] at hp
      cases hp

theorem mem_take_blL_succ_le {l : List ℤ} (hl : l.Pairwise (· ≤ ·)) (hi : ℚ) :
    ∀ (i : ℕ) (p k : ℤ), p ∈ (l.drop i).take (blL l hi + 1 - i) → k ∈ l →
      hi ≤ (k : ℚ) → p ≤ k := by
  induction l with
  | nil => intro i p k _ hk _; cases hk
  | cons a t ih =>
    obtain ⟨ha, ht⟩ := List.pairwise_cons.mp hl
    intro i p k hp hk hik
    by_cases h : (a : ℚ) < hi
    · have hk2 : k ∈ t := by
        rcases List.mem_cons.mp hk with rfl | hkt
        · exact absurd hik (not_le.mpr h)
        · exact hkt
      rw [blL_cons_of_lt h] at hp
      cases i with
      | zero =>
        rw [List.drop_zero, Nat.sub_zero, List.take_succ_cons] at hp
        rcases List.mem_cons.mp hp with h1 | h1
        · rw [h1]; exact ha k hk2
        · exact ih ht 0 p k (by simpa using h1) hk2 hik
      | succ i =>
        rw [List.drop_succ_cons, Nat.succ_sub_succ] at hp
        exact ih ht i p k hp hk2 hik
    · rw [blL_cons_of_ge ha h] at hp
      cases i with
      | zero =>
        rw [List.drop_zero, Nat.sub_zero, List.take_succ_cons, List.take_zero] at hp
        rcases List.mem_cons.mp hp with h1 | h1
        · rcases List.mem_cons.mp hk with h2 | h2
          · rw [h1, h2]
          · rw [h1]; exact ha k h2
        · cases h1
      | succ i =>
        rw [Nat.succ_sub_succ, Nat.zero_sub, List.take_zero] at hp
        cases hp

theorem blL_mono (l : List ℤ) {v w : ℚ} (h : v ≤ w) : blL l v ≤ blL l w := by
  induction l with
  | nil => exact le_refl 0
  | cons a t ih =>
    by_cases hav : (a : ℚ) < v
    · rw [blL_cons_of_lt hav, blL_cons_of_lt (lt_of_lt_of_le hav h)]
      omega
    · have hle : blL (a :: t) v ≤ blL t v := by
        unfold blL
        rw [List.countP_cons]
        simp [hav]
      calc blL (a :: t) v ≤ blL t v := hle
        _ ≤ blL t w := ih
        _ ≤ blL (a :: t) w := by
          unfold blL
          rw [List.countP_cons]
          exact Nat.le_add_right _ _

/- ------------------------------------------------------------------ -/
/- Helper lemmas about the defaultdict index                           -/
/- ------------------------------------------------------------------ -/

theorem lookup_append_some {β : Type} (u : String) {l₁ : List (String × β)}
    (l₂ : List (String × β)) {v : β} (h : l₁.lookup u = some v) :
    (l₁ ++ l₂).lookup u = some v := by
  induction l₁ with
  | nil => cases h
  | cons p t ih =>
    obtain ⟨k, w⟩ := p
    rw [List.cons_append, List.lookup_cons]
    rw [List.lookup_cons] at h
    cases hb : (u == k) with
    | true => simpa [hb] using h
    | false =>
      rw [hb] at h
      simpa [hb] using ih h

theorem lookup_append_none {β : Type} (u : String) {l₁ : List (String × β)}
    (l₂ : List (String × β)) (h : l₁.lookup u = none) :
    (l₁ ++ l₂).lookup u = l₂.lookup u := by
  induction l₁ with
  | nil => rfl
  | cons p t ih =>
    obtain ⟨k, w⟩ := p
    rw [List.cons_append, List.lookup_cons]
    rw [List.lookup_cons] at h
    cases hb : (u == k) with
    | true => rw [hb] at h; cases h
    | false =>
      rw [hb] at h
      simpa [hb] using ih h

theorem idxExt_refl (i : Index) : IdxExt i i := fun _ => Or.inl rfl

theorem idxExt_trans {i j k : Index} (h₁ : IdxExt i j) (h₂ : IdxExt j k) : IdxExt i k := by
  intro u
  rcases h₂ u with he | ⟨hn, hs⟩
  · rcases h₁ u with he1 | ⟨hn1, hs1⟩
    · exact Or.inl (he.trans he1)
    · exact Or.inr ⟨hn1, he.trans hs1⟩
  · rcases h₁ u with he1 | ⟨hn1, hs1⟩
    · exact Or.inr ⟨he1 ▸ hn, hs⟩
    · rw [hs1] at hn
      cases hn

theorem idxExt_dget (idx : Index) (t : String) : IdxExt idx (dget idx t).2 := by
  unfold dget
  cases h : idx.lookup t with
  | some v => simpa [h] using idxExt_refl idx
  | none =>
    simp only [h]
    intro w
    by_cases hw : w = t
    · subst hw
      refine Or.inr ⟨h, ?_⟩
      rw [lookup_append_none _ _ h]
      simp [List.lookup_cons]
    · refine Or.inl ?_
      cases hw2 : idx.lookup w with
      | some v => rw [lookup_append_some _ _ hw2]
      | none =>
        rw [lookup_append_none _ _ hw2]
        have hb : (w == t) = false := by simpa using hw
        simp [List.lookup_cons, hb, List.lookup]

theorem idxExt_meddle (idx : Index) (q : Quantity) (a b : ℕ) :
    IdxExt idx (meddle_round idx q a b).2 := by
  unfold meddle_round
  cases h : randChoice (q.units.map Prod.fst) a with
  | none => exact idxExt_refl idx
  | some t =>
    show IdxExt idx (match randChoice (dget idx t).1 b with
      | none => ((none : Option Quantity), (dget idx t).2)
      | some eq => (eq.multiply q t, (dget idx t).2)).2
    cases h3 : randChoice (dget idx t).1 b with
    | none => exact idxExt_dget idx t
    | some eq => exact idxExt_dget idx t

theorem idxExt_loop : ∀ (rounds : List (ℕ × ℕ)) (idx : Index) (q : Quantity),
    IdxExt idx (random_convert_loop idx q rounds).2 := by
  intro rounds
  induction rounds with
  | nil => intro idx q; exact idxExt_refl idx
  | cons r rest ih =>
    intro idx q
    unfold random_convert_loop
    cases h : meddle_round idx q r.1 r.2 with
    | mk oq idx2 =>
      have h1 : IdxExt idx idx2 := by
        have := idxExt_meddle idx q r.1 r.2
        rw [h] at this
        exact this
      cases oq with
      | some q2 => exact idxExt_trans h1 (ih idx2 q2)
      | none => exact h1

/- ------------------------------------------------------------------ -/
/- Claim theorems                                                      -/
/- ------------------------------------------------------------------ -/

/-- Claim C1: the claim states that rendering with maybe_si = False always
terminates normally with a string. On the code it is refuted: the non-SI
branch of to_string never assigns exp_adj, which the next line reads, so
every such call raises UnboundLocalError; the embedding returns none for
every quantity and every injected randomness. This theorem evaluates the
code on the whole failing input class. -/
theorem C1_plain_render_raises (q : Quantity) (coinNum coinDen : Bool) (c₁ c₂ : ℕ) :
    q.to_string false coinNum coinDen c₁ c₂ = none := rfl

/-- Claim C2, counterexample: with self = Quantity(1, a^2), other =
Quantity(1, a^1) and target a, the code picks sign = -1 and stores exponent
other[a] + sign * self[a] = -1 for a, whereas the formula claimed for the
result, self[a] + sign * other[a], evaluates to 1. -/
theorem C2_counterexample :
    Quantity.multiply ⟨1, [("a", 2)]⟩ ⟨1, [("a", 1)]⟩ "a" = some ⟨1, [("a", -1)]⟩ ∧
    unitGet [("a", -1)] "a" ≠ 2 + (if (2 : ℤ) < 1 then (1 : ℤ) else -1) * 1 := by
  constructor
  · have h1 : Quantity.multiply ⟨1, [("a", 2)]⟩ ⟨1, [("a", 1)]⟩ "a"
        = some ⟨(1 : ℚ) ^ (-1 : ℤ) * 1, [("a", -1)]⟩ := rfl
    rw [h1, show (1 : ℚ) ^ (-1 : ℤ) * 1 = 1 from by norm_num]
  · decide

/-- Claim C2, amended: for Quantities that both hold a non-zero entry for the
target unit, multiply returns the Quantity whose coefficient is
self.coeff ** sign * other.coeff and whose exponent map is the pointwise
combination other[u] + sign * self[u] (the sign multiplies the receiver
self, not other) over every unit of either map, absent entries counting as
0 and zero results dropped, with sign = +1 iff self[target] < other[target]. -/
theorem C2_multiply_characterisation (self other : Quantity) (t : String) (se oe : ℤ)
    (hse : self.units.lookup t = some se) (hoe : other.units.lookup t = some oe)
    (_hse0 : se ≠ 0) (_hoe0 : oe ≠ 0) :
    Quantity.multiply self other t =
      some ⟨self.coeff ^ (if se < oe then (1 : ℤ) else -1) * other.coeff,
            self.unit_pairs other.units (if se < oe then 1 else -1)⟩ ∧
    (∀ u, unitGet (self.unit_pairs other.units (if se < oe then (1 : ℤ) else -1)) u
        = unitGet other.units u
          + (if se < oe then (1 : ℤ) else -1) * unitGet self.units u) ∧
    (∀ p ∈ self.unit_pairs other.units (if se < oe then (1 : ℤ) else -1), p.2 ≠ 0) := by
  refine ⟨?_, fun u => unitGet_unit_pairs _ _ _ _, unit_pairs_ne_zero _ _ _⟩
  unfold Quantity.multiply
  rw [hse, hoe]

/-- Witness for C2: the theorem applied at self = Quantity(1, a^2),
other = Quantity(1, a^1), target a, where sign = -1. -/
theorem C2_multiply_characterisation_witness :
    (Quantity.mk 1 [("a", 2)]).units.lookup "a" = some 2 ∧
    Quantity.multiply ⟨1, [("a", 2)]⟩ ⟨1, [("a", 1)]⟩ "a" =
      some ⟨(1 : ℚ) ^ (if (2 : ℤ) < 1 then (1 : ℤ) else -1) * 1,
            (Quantity.mk 1 [("a", 2)]).unit_pairs [("a", 1)]
              (if (2 : ℤ) < 1 then 1 else -1)⟩ :=
  ⟨rfl,
   (C2_multiply_characterisation ⟨1, [("a", 2)]⟩ ⟨1, [("a", 1)]⟩ "a" 2 1 rfl rfl
      (by decide) (by decide)).1⟩

/-- Claim C3: the claim states that the chosen sign never moves the target
exponent away from zero. The code contradicts its own module docstring
(pull the chosen exponent closer to zero): applying the jiffy catalog
equation (coefficient 33.3564e-12, jiffy^-1 second^1) to Quantity(1, 1/second)
with target second picks sign = -1 and produces target exponent -2, whose
magnitude 2 exceeds both entries magnitude 1. This theorem evaluates the code
at that failing input. -/
theorem C3_sign_rule_failing_input :
    Quantity.multiply ⟨33.3564e-12, [("jiffy", -1), ("second", 1)]⟩
        ⟨1, [("second", -1)]⟩ "second"
      = some ⟨(10 : ℚ) ^ 16 / 333564, [("second", -2), ("jiffy", 1)]⟩ ∧
    ¬ (|(-2 : ℤ)| ≤ |(1 : ℤ)|) := by
  constructor
  · have h1 : Quantity.multiply ⟨33.3564e-12, [("jiffy", -1), ("second", 1)]⟩
          ⟨1, [("second", -1)]⟩ "second"
        = some ⟨(33.3564e-12 : ℚ) ^ (-1 : ℤ) * 1, [("second", -2), ("jiffy", 1)]⟩ := rfl
    rw [h1, show (33.3564e-12 : ℚ) ^ (-1 : ℤ) * 1 = (10 : ℚ) ^ 16 / 333564 from by
      norm_num]
  · decide

/-- Claim C4: with the single catalog equation volt^-1 ampère ohm of
coefficient 1, the application random_convert performs in one round
(equation.multiply(quantity, volt)) on Quantity(2000, volt) yields exactly
Quantity(2000, ampère ohm): the volt exponent reaches 0 and is dropped. The
second conjunct replays the full random_convert round against the real index,
which contains exactly that equation first under volt. -/
theorem C4_volt_scenario :
    Quantity.multiply ⟨1, [("volt", -1), ("ampère", 1), ("ohm", 1)]⟩
        ⟨2000, [("volt", 1)]⟩ "volt"
      = some ⟨2000, [("ampère", 1), ("ohm", 1)]⟩ ∧
    random_convert CONV_BY_UNIT ⟨2000, [("volt", 1)]⟩ false [(0, 0)]
      = (some ⟨2000, [("ampère", 1), ("ohm", 1)]⟩, CONV_BY_UNIT) := by
  constructor
  · have h1 : Quantity.multiply ⟨1, [("volt", -1), ("ampère", 1), ("ohm", 1)]⟩
          ⟨2000, [("volt", 1)]⟩ "volt"
        = some ⟨(1 : ℚ) ^ (1 : ℤ) * 2000, [("ampère", 1), ("ohm", 1)]⟩ := rfl
    rw [h1, show (1 : ℚ) ^ (1 : ℤ) * 2000 = 2000 from by norm_num]
  · have h1 : random_convert CONV_BY_UNIT ⟨2000, [("volt", 1)]⟩ false [(0, 0)]
        = (some ⟨(1 : ℚ) ^ (1 : ℤ) * 2000, [("ampère", 1), ("ohm", 1)]⟩, CONV_BY_UNIT) :=
      rfl
    rw [h1, show (1 : ℚ) ^ (1 : ℤ) * 2000 = 2000 from by norm_num]

/-- Claim C5, counterexample: running random_convert on a Quantity seeded with
the unit metre, which has no catalog entries, fails with an error (the empty
random choice) as the claim says, but the index is not the same afterwards:
the defaultdict lookup inserts the key metre with an empty equation list. -/
theorem C5_counterexample :
    (random_convert CONV_BY_UNIT ⟨1, [("metre", 1)]⟩ false [(0, 0)]).1 = none ∧
    (random_convert CONV_BY_UNIT ⟨1, [("metre", 1)]⟩ false [(0, 0)]).2
      ≠ CONV_BY_UNIT := by
  constructor
  · rfl
  · intro h
    have h1 : (random_convert CONV_BY_UNIT ⟨1, [("metre", 1)]⟩ false [(0, 0)]).2.length
        = 14 := rfl
    have h2 : CONV_BY_UNIT.length = 13 := rfl
    rw [h] at h1
    omega

/-- Claim C5, amended: across every execution of random_convert the equation
list stored under every preexisting key is unchanged and no key is removed;
the only possible change is that a round whose chosen target unit is absent
from the index inserts that unit bound to the empty equation list (the
defaultdict mutates on read) before the round fails. -/
theorem C5_index_frame (idx : Index) (q : Quantity) (recip : Bool)
    (rounds : List (ℕ × ℕ)) :
    (∀ (u : String) (v : List Quantity), idx.lookup u = some v →
        (random_convert idx q recip rounds).2.lookup u = some v) ∧
    IdxExt idx (random_convert idx q recip rounds).2 := by
  have h : IdxExt idx (random_convert idx q recip rounds).2 := by
    unfold random_convert
    exact idxExt_loop rounds idx _
  refine ⟨?_, h⟩
  intro u v hv
  rcases h u with heq | ⟨hnone, _⟩
  · rw [heq]
    exact hv
  · rw [hnone] at hv
    cases hv

/-- Witness for C5: the theorem applied to the real index, the metre-seeded
quantity and one round of injected randomness, at the key metre. -/
theorem C5_index_frame_witness :
    (random_convert CONV_BY_UNIT ⟨1, [("metre", 1)]⟩ false [(0, 0)]).2.lookup "metre"
        = CONV_BY_UNIT.lookup "metre" ∨
    (CONV_BY_UNIT.lookup "metre" = none ∧
      (random_convert CONV_BY_UNIT ⟨1, [("metre", 1)]⟩ false [(0, 0)]).2.lookup "metre"
        = some []) :=
  (C5_index_frame CONV_BY_UNIT ⟨1, [("metre", 1)]⟩ false [(0, 0)]).2 "metre"

/-- Claim C6, counterexample: with coefficient 10 (baseExp 1), no numerator
group and a single denominator group of exponent -1, get_si can choose the
denominator offset 9 (prefix giga): the returned adjustment is den - num =
9. Both |baseExp - p * exponent| = |1 - 9 * (-1)| = 10 and the
exponent-free |baseExp - p| = 8 exceed 6, refuting the claimed window. -/
theorem C6_counterexample :
    get_si 10 [] [-1] false true 0 8 = some (9, "", "giga") ∧
    ¬ (|(1 : ℤ) - 9 * (-1)| ≤ 6) ∧ ¬ (|(1 : ℤ) - 9| ≤ 6) := by
  refine ⟨?_, by decide, by decide⟩
  unfold get_si
  rw [if_neg (by norm_num : (10 : ℚ) ≠ 0)]
  have hnl : Nat.log 10 10 = 1 := by
    have h := Nat.log_pow (b := 10) (by norm_num) 1
    simpa using h
  have hlog : Int.log 10 |(10 : ℚ)| = 1 := by
    rw [abs_of_pos (by norm_num : (0 : ℚ) < 10),
        show (10 : ℚ) = ((10 : ℕ) : ℚ) by norm_num, Int.log_natCast, hnl]
    norm_num
  rw [hlog]
  have hd : den_choices 1 = [-3, -2, -1, 0, 1, 2, 3, 6, 9] := by
    unfold den_choices
    rw [show max (-30 : ℚ) (((1 : ℤ) : ℚ) - 6) = -5 by
          rw [max_eq_right (by norm_num)]; norm_num,
        show min (30 : ℚ) (((1 : ℤ) : ℚ) + 6) = 7 by
          rw [min_eq_right (by norm_num)]; norm_num]
    decide
  show (match (match randChoice (den_choices 1) 8 with
          | none => none
          | some den => some (siName den, den) : Option (String × ℤ)) with
        | none => none
        | some (den_pre, den) => some (den - 0, "", den_pre)) = some (9, "", "giga")
  rw [hd]
  rfl

/-- Claim C6, amended: every offset the two candidate slices of get_si can
offer is a member of the fixed ladder. The numerator slice keeps
|baseExp - p * numExponent| ≤ 6 as claimed. The denominator slice, however,
is computed without multiplying by the denominator exponent and with an
inclusive upper bisect bound: its offsets p satisfy
max(-30, baseline - 6) ≤ p together with p ≤ k for every ladder value k at
or above min(30, baseline + 6); the claimed bound
|baseline - p * denExponent| ≤ 6 can fail. -/
theorem C6_prefix_windows (exp e p : ℤ) :
    (∀ (l : List ℤ) (c : ℕ), randChoice l c = some p → p ∈ l) ∧
    (1 ≤ e → p ∈ num_choices exp e →
      p ∈ siKeys ∧ exp - 6 ≤ p * e ∧ p * e ≤ exp + 6) ∧
    (p ∈ den_choices exp →
      p ∈ siKeys ∧ max (-30) (exp - 6) ≤ p ∧
        ∀ k ∈ siKeys, min 30 (exp + 6) ≤ k → p ≤ k) := by
  have hsorted : siKeys.Pairwise (· ≤ ·) := by decide
  refine ⟨?_, ?_, ?_⟩
  · intro l c h
    unfold randChoice at h
    exact List.get?_mem h
  · intro he hp
    unfold num_choices pySlice blQ at hp
    have hmem : p ∈ siKeys := List.drop_subset _ _ (List.take_subset _ _ hp)
    have hepos : (0 : ℚ) < (e : ℚ) := by
      exact_mod_cast lt_of_lt_of_le Int.zero_lt_one he
    have hlo : max (-30 : ℚ) (((exp : ℚ) - 6) / (e : ℚ)) ≤ (p : ℚ) :=
      blL_le_mem hsorted _ _ p hp
    have hlo2 : ((exp : ℚ) - 6) / (e : ℚ) ≤ (p : ℚ) :=
      le_trans (le_max_right _ _) hlo
    have hlo3 : (exp : ℚ) - 6 ≤ (p : ℚ) * (e : ℚ) := (div_le_iff₀ hepos).mp hlo2
    have hhi : (p : ℚ) < min 30 (((exp : ℚ) + 6) / (e : ℚ)) :=
      mem_take_blL_lt hsorted _ _ p hp
    have hhi2 : (p : ℚ) < ((exp : ℚ) + 6) / (e : ℚ) :=
      lt_of_lt_of_le hhi (min_le_right _ _)
    have hhi3 : (p : ℚ) * (e : ℚ) < (exp : ℚ) + 6 := (lt_div_iff₀ hepos).mp hhi2
    refine ⟨hmem, ?_, ?_⟩
    · exact_mod_cast hlo3
    · have : (p : ℤ) * e < exp + 6 := by exact_mod_cast hhi3
      omega
  · intro hp
    unfold den_choices pySlice blQ at hp
    have hmem : p ∈ siKeys := List.drop_subset _ _ (List.take_subset _ _ hp)
    have hlo : max (-30 : ℚ) ((exp : ℚ) - 6) ≤ (p : ℚ) :=
      blL_le_mem hsorted _ _ p hp
    refine ⟨hmem, ?_, ?_⟩
    · have h30 : ((-30 : ℤ) : ℚ) = (-30 : ℚ) := by norm_num
      rw [max_le_iff] at hlo
      have h1 : (-30 : ℤ) ≤ p := by exact_mod_cast hlo.1
      have h2 : exp - 6 ≤ p := by
        have := hlo.2
        have h3 : (exp : ℚ) - 6 = ((exp - 6 : ℤ) : ℚ) := by push_cast; ring
        rw [h3] at this
        exact_mod_cast this
      omega
    · intro k hk hkge
      refine mem_take_blL_succ_le hsorted _ _ p k hp hk ?_
      have h3 : ((min 30 (exp + 6) : ℤ) : ℚ) = min (30 : ℚ) ((exp : ℚ) + 6) := by
        push_cast
        rfl
      rw [← h3]
      exact_mod_cast hkge

/-- Witness for C6: the theorem applied at baseExp 2, numerator exponent 1
and candidate offset 3, which lies in the numerator slice. -/
theorem C6_prefix_windows_witness :
    ((1 : ℤ) ≤ 1) ∧ ((3 : ℤ) ∈ num_choices 2 1) ∧
    ((3 : ℤ) ∈ siKeys ∧ (2 : ℤ) - 6 ≤ 3 * 1 ∧ (3 : ℤ) * 1 ≤ 2 + 6) := by
  have hn : num_choices 2 1 = [-3, -2, -1, 0, 1, 2, 3, 6] := by
    unfold num_choices
    rw [show max (-30 : ℚ) ((((2 : ℤ) : ℚ) - 6) / ((1 : ℤ) : ℚ)) = -4 by
          rw [max_eq_right (by norm_num)]; norm_num,
        show min (30 : ℚ) ((((2 : ℤ) : ℚ) + 6) / ((1 : ℤ) : ℚ)) = 8 by
          rw [min_eq_right (by norm_num)]; norm_num]
    decide
  refine ⟨by decide, by rw [hn]; decide, ?_⟩
  exact (C6_prefix_windows 2 1 3).2.1 (by decide) (by rw [hn]; decide)

/-- Claim C7: combine (unit_pairs) never emits a zero exponent for either
admissible sign, multiply therefore always returns a zero-free exponent map,
and reciprocal maps a zero-free exponent map to a zero-free exponent map. -/
theorem C7_zero_free_invariant :
    (∀ (self : Quantity) (units : List (String × ℤ)) (sign : ℤ),
        sign = 1 ∨ sign = -1 → ∀ p ∈ self.unit_pairs units sign, p.2 ≠ 0) ∧
    (∀ (self other : Quantity) (t : String) (r : Quantity),
        Quantity.multiply self other t = some r → ∀ p ∈ r.units, p.2 ≠ 0) ∧
    (∀ q : Quantity, (∀ p ∈ q.units, p.2 ≠ 0) →
        ∀ p ∈ q.reciprocal.units, p.2 ≠ 0) := by
  refine ⟨fun self units sign _ => unit_pairs_ne_zero self units sign, ?_, ?_⟩
  · intro self other t r h
    unfold Quantity.multiply at h
    cases hs : self.units.lookup t with
    | none =>
      cases ho : other.units.lookup t with
      | none => rw [hs, ho] at h; exact Option.noConfusion h
      | some oe => rw [hs, ho] at h; exact Option.noConfusion h
    | some se =>
      cases ho : other.units.lookup t with
      | none => rw [hs, ho] at h; exact Option.noConfusion h
      | some oe =>
        rw [hs, ho] at h
        have h2 := Option.some.inj h
        rw [← h2]
        exact unit_pairs_ne_zero _ _ _
  · intro q hq p hp
    unfold Quantity.reciprocal at hp
    rw [List.mem_map] at hp
    obtain ⟨a, ha, rfl⟩ := hp
    simpa using hq a ha

/-- Witness for C7: the zero-free property applied with sign +1 to the volt
equation against the volt quantity, at the surviving ampère entry. -/
theorem C7_zero_free_invariant_witness :
    ((1 : ℤ) = 1 ∨ (1 : ℤ) = -1) ∧
    (("ampère", (1 : ℤ))
      ∈ (Quantity.mk 1 [("volt", -1), ("ampère", 1), ("ohm", 1)]).unit_pairs
          [("volt", 1)] 1) ∧
    ("ampère", (1 : ℤ)).2 ≠ 0 :=
  ⟨Or.inl rfl, by decide,
   C7_zero_free_invariant.1 ⟨1, [("volt", -1), ("ampère", 1), ("ohm", 1)]⟩
     [("volt", 1)] 1 (Or.inl rfl) ("ampère", 1) (by decide)⟩

/-- Claim C8, counterexample: rendering Quantity(1, second^-1) without SI
prefixes does not produce the claimed string "1 inverse per second" — as
written the call raises UnboundLocalError (the non-SI branch never binds
exp_adj), so no string at all is produced. -/
theorem C8_counterexample :
    Quantity.to_string ⟨1, [("second", -1)]⟩ false false false 0 0
      ≠ some "1 inverse per second" := by
  intro h
  have h0 : Quantity.to_string ⟨1, [("second", -1)]⟩ false false false 0 0 = none := rfl
  rw [h0] at h
  cases h

/-- Claim C8, amended: with the evident exp_adj = 0 repair of the non-SI
branch, rendering Quantity(1, second^-1) yields the literal string
"1 inverse seconds": with no numerator group the word inverse is used, no
"per " separator is emitted, and the denominator string is pluralized. -/
theorem C8_fixed_render :
    Quantity.to_string_fixed ⟨1, [("second", -1)]⟩ = "1 inverse seconds" := by
  have h1 : Quantity.to_string_fixed ⟨1, [("second", -1)]⟩
      = format_coeff ((1 : ℚ) * 10 ^ (0 : ℤ)) ++ " " ++ "" ++ "inverse"
        ++ " " ++ "" ++ "" ++ "seconds" := rfl
  rw [h1, show (1 : ℚ) * 10 ^ (0 : ℤ) = 1 from by norm_num]
  rfl

/-- Claim C9: reciprocal is an involution: for every Quantity with non-zero
coefficient, reciprocal of reciprocal is the original Quantity, with the
exponent map exactly equal (double negation) and the coefficient exactly
equal in exact arithmetic. -/
theorem C9_reciprocal_involution (q : Quantity) (_h : q.coeff ≠ 0) :
    q.reciprocal.reciprocal = q := by
  cases q with
  | mk c us =>
    show Quantity.mk (1 / (1 / c))
        ((us.map fun p => (p.1, -p.2)).map fun p => (p.1, -p.2)) = Quantity.mk c us
    rw [one_div_one_div, List.map_map]
    have hcomp : ((fun p : String × ℤ => (p.1, -p.2)) ∘ fun p : String × ℤ =>
        (p.1, -p.2)) = id := by
      funext p
      simp
    rw [hcomp, List.map_id]

/-- Witness for C9: the involution applied to Quantity(2000, volt). -/
theorem C9_reciprocal_involution_witness :
    ((Quantity.mk 2000 [("volt", 1)]).coeff ≠ 0) ∧
    (Quantity.mk 2000 [("volt", 1)]).reciprocal.reciprocal
      = Quantity.mk 2000 [("volt", 1)] :=
  ⟨by decide, C9_reciprocal_involution ⟨2000, [("volt", 1)]⟩ (by decide)⟩

/-- Claim C10: prefix selection can fail with an unhandled IndexError on a
finite non-zero coefficient: with one numerator unit of exponent 1, a chosen
numerator slot and floor(log10 of the coefficient) at least 36, the clamped
numerator ladder slice is empty, so the random choice from it fails. -/
theorem C10_empty_numerator_slice (x : ℚ) (denPowers : List ℤ) (coinDen : Bool)
    (c₁ c₂ : ℕ) (hx : x ≠ 0) (h36 : 36 ≤ Int.log 10 |x|) :
    get_si x [1] denPowers true coinDen c₁ c₂ = none := by
  unfold get_si
  rw [if_neg hx]
  have hnum : num_choices (Int.log 10 |x|) 1 = [] := by
    unfold num_choices pySlice
    have hcast : (36 : ℚ) ≤ ((Int.log 10 |x| : ℤ) : ℚ) := by exact_mod_cast h36
    have h1 : (30 : ℚ) ≤ max (-30) ((((Int.log 10 |x| : ℤ) : ℚ) - 6) / ((1 : ℤ) : ℚ)) := by
      refine le_max_of_le_right ?_
      rw [show ((1 : ℤ) : ℚ) = 1 by norm_num, div_one]
      linarith
    have h2 : min (30 : ℚ) ((((Int.log 10 |x| : ℤ) : ℚ) + 6) / ((1 : ℤ) : ℚ)) ≤ 30 :=
      min_le_left _ _
    have hji : blQ (min 30 ((((Int.log 10 |x| : ℤ) : ℚ) + 6) / ((1 : ℤ) : ℚ)))
        ≤ blQ (max (-30) ((((Int.log 10 |x| : ℤ) : ℚ) - 6) / ((1 : ℤ) : ℚ))) := by
      calc blQ (min 30 ((((Int.log 10 |x| : ℤ) : ℚ) + 6) / ((1 : ℤ) : ℚ)))
          ≤ blQ 30 := blL_mono siKeys h2
        _ ≤ blQ (max (-30) ((((Int.log 10 |x| : ℤ) : ℚ) - 6) / ((1 : ℤ) : ℚ))) :=
          blL_mono siKeys h1
    rw [Nat.sub_eq_zero_of_le hji, List.take_zero]
  unfold get_si_core
  simp [randChoice, hnum]

/-- Witness for C10: the coefficient 10^36 is finite and non-zero, its floor
log10 is 36, and prefix selection on it returns the error outcome. -/
theorem C10_empty_numerator_slice_witness :
    ((10 : ℚ) ^ 36 ≠ 0) ∧ (36 ≤ Int.log 10 |(10 : ℚ) ^ 36|) ∧
    get_si ((10 : ℚ) ^ 36) [1] [] true false 0 0 = none := by
  have hnl : Nat.log 10 (10 ^ 36) = 36 := Nat.log_pow (by norm_num) 36
  have hlog : Int.log 10 |(10 : ℚ) ^ 36| = 36 := by
    rw [abs_of_pos (by positivity),
        show (10 : ℚ) ^ 36 = ((10 ^ 36 : ℕ) : ℚ) by push_cast; ring,
        Int.log_natCast, hnl]
    norm_num
  refine ⟨by positivity, by rw [hlog], ?_⟩
  exact C10_empty_numerator_slice ((10 : ℚ) ^ 36) [] false 0 0 (by positivity)
    (by rw [hlog])
